import Mathlib

/-!
Verification development for the `ts` timestamp tool (`ts.c`).

The C source is shallowly embedded: C strings become `List Char` (the list
never contains the terminating NUL; "byte-for-byte including the terminator"
statements are list equalities), `time_t` becomes `Int` with explicit
two's-complement wrap where a 64-bit conversion happens, out-parameters
become returned values, and every fallible function returns its
`ts_error_t` status code paired with the values it would have written.
Calls into libc that are outside the repository (`strptime`, `mktime`,
`localtime`, `strftime`, `time`) are modelled as explicit oracle
parameters; the control flow around them is translated from `ts.c`.
-/

namespace TS

/-- Status codes of every fallible operation, mirroring the C enum
`ts_error_t` in `ts.c` (the numeric values are irrelevant to behaviour). -/
inductive ts_error_t where
  | TS_SUCCESS
  | TS_ERROR_INVALID_ARGUMENT
  | TS_ERROR_BUFFER_OVERFLOW
  | TS_ERROR_REGEX_COMPILE
  | TS_ERROR_REGEX_EXEC
  | TS_ERROR_TIME_PARSE
  | TS_ERROR_SYSTEM
deriving DecidableEq, Repr

/-- High-resolution timestamp, mirroring `high_res_time_t` in `ts.c`. -/
structure high_res_time_t where
  seconds : Int
  nanoseconds : Int
deriving DecidableEq, Repr

/-! ### POSIX extended-regex model for the fixed pattern table

The eight pattern strings in `timestamp_formats` use only character
classes (`[A-Za-z]`, `[a-z]`, `[0-9]`, literal characters) under bounded
or unbounded repetition, with no alternation.  Such a pattern is a
sequence of `Atom`s.  `regexec` with one `regmatch_t` returns the
leftmost match, longest at that position; for a concatenation of greedy
character-class repetitions this equals greedy longest-first matching,
which is what `matchFrom` implements. -/

/-- Character classes occurring in the pattern table's regular expressions. -/
inductive CharClass where
  | alpha              -- [A-Za-z]
  | loweralpha         -- [a-z]
  | digit              -- [0-9]
  | lit (c : Char)     -- a literal character (including the escaped \.)
deriving DecidableEq, Repr

/-- Does character `c` belong to the class? -/
def CharClass.matchesC : CharClass → Char → Bool
  | .alpha, c => (('A' ≤ c) && (c ≤ 'Z')) || (('a' ≤ c) && (c ≤ 'z'))
  | .loweralpha, c => ('a' ≤ c) && (c ≤ 'z')
  | .digit, c => ('0' ≤ c) && (c ≤ '9')
  | .lit d, c => c = d

/-- One repeated character class `cls{lo,hi}`; `hi = none` means unbounded
(as in `{10,}`). -/
structure Atom where
  cls : CharClass
  lo : Nat
  hi : Option Nat
deriving DecidableEq, Repr

/-- Length of the maximal run of characters of class `k` at the head of `s`. -/
def runLen (k : CharClass) : List Char → Nat
  | [] => 0
  | c :: r => if k.matchesC c then runLen k r + 1 else 0

/-- Match a sequence of atoms at the head of `s`, greedy longest-first
(the POSIX longest match at this position for these patterns); returns the
number of characters consumed. -/
def matchFrom : List Atom → List Char → Option Nat
  | [], _ => some 0
  | a :: as, s =>
    let m := runLen a.cls s
    let hiv := match a.hi with | some h => min h m | none => m
    if hiv < a.lo then none
    else
      (List.range (hiv + 1 - a.lo)).findSome? fun j =>
        (matchFrom as (s.drop (hiv - j))).map fun n => (hiv - j) + n

/-- Scan for the leftmost position (from `pos` on) where the atoms match;
returns the matched span `[start, end)` like `regexec`'s `rm_so`/`rm_eo`. -/
def searchAt (atoms : List Atom) : List Char → Nat → Option (Nat × Nat)
  | s, pos =>
    match matchFrom atoms s with
    | some n => some (pos, pos + n)
    | none =>
      match s with
      | [] => none
      | _ :: r => searchAt atoms r (pos + 1)

/-- Model of `regexec(&regex, line, 1, matches, 0)` for a pattern-table
entry: the leftmost match span in `l`, or `none` for `REG_NOMATCH`. -/
def regexecM (atoms : List Atom) (l : List Char) : Option (Nat × Nat) :=
  searchAt atoms l 0

/-- Atom `cls{lo,hi}`. -/
def rep (k : CharClass) (lo hi : Nat) : Atom := ⟨k, lo, some hi⟩

/-- Atom `cls{lo,}` (unbounded). -/
def repAtLeast (k : CharClass) (lo : Nat) : Atom := ⟨k, lo, none⟩

/-- Atom for a single literal character. -/
def ch (c : Char) : Atom := ⟨.lit c, 1, some 1⟩

/-- One entry of the pattern table, mirroring `timestamp_format_t`:
the regex (already translated to atoms), the optional `strptime` format,
and the entry name. -/
structure timestamp_format_t where
  pattern : List Atom
  format : Option String
  name : String
deriving DecidableEq, Repr

/-- The fixed pattern table `timestamp_formats` of `ts.c` (the C array's
final `{NULL, NULL, NULL}` terminator is represented by the end of the
list).  Each entry's atoms translate the C pattern string given in the
comment. -/
def timestamp_formats : List timestamp_format_t := [
  -- syslog: "[A-Za-z]{3} [0-9]{1,2} [0-9]{2}:[0-9]{2}:[0-9]{2}"
  ⟨[rep .alpha 3 3, ch ' ', rep .digit 1 2, ch ' ', rep .digit 2 2,
    ch ':', rep .digit 2 2, ch ':', rep .digit 2 2],
   some "%b %d %H:%M:%S", "syslog"⟩,
  -- ISO-8601: "[0-9]{4}-[0-9]{2}-[0-9]{2}T[0-9]{2}:[0-9]{2}:[0-9]{2}"
  ⟨[rep .digit 4 4, ch '-', rep .digit 2 2, ch '-', rep .digit 2 2,
    ch 'T', rep .digit 2 2, ch ':', rep .digit 2 2, ch ':', rep .digit 2 2],
   some "%Y-%m-%dT%H:%M:%S", "ISO-8601"⟩,
  -- RFC: "[0-9]{1,2} [A-Za-z]{3} [0-9]{2} [0-9]{2}:[0-9]{2}:[0-9]{2}"
  ⟨[rep .digit 1 2, ch ' ', rep .alpha 3 3, ch ' ', rep .digit 2 2,
    ch ' ', rep .digit 2 2, ch ':', rep .digit 2 2, ch ':', rep .digit 2 2],
   some "%d %b %y %H:%M:%S", "RFC"⟩,
  -- lastlog: "[A-Za-z]{3} [A-Za-z]{3} [0-9]{2} [0-9]{2}:[0-9]{2}"
  ⟨[rep .alpha 3 3, ch ' ', rep .alpha 3 3, ch ' ', rep .digit 2 2,
    ch ' ', rep .digit 2 2, ch ':', rep .digit 2 2],
   some "%a %b %d %H:%M", "lastlog"⟩,
  -- short: "[0-9]{2} [a-z]{3} [0-9]{2}:[0-9]{2}"
  ⟨[rep .digit 2 2, ch ' ', rep .loweralpha 3 3, ch ' ', rep .digit 2 2,
    ch ':', rep .digit 2 2],
   some "%d %b %H:%M", "short"⟩,
  -- short_with_year: "[0-9]{2} [a-z]{3}/[0-9]{2} [0-9]{2}:[0-9]{2}:[0-9]{2}"
  ⟨[rep .digit 2 2, ch ' ', rep .loweralpha 3 3, ch '/', rep .digit 2 2,
    ch ' ', rep .digit 2 2, ch ':', rep .digit 2 2, ch ':', rep .digit 2 2],
   some "%d %b/%y %H:%M:%S", "short_with_year"⟩,
  -- unix_fractional: "[0-9]{10,}\\.[0-9]{1,9}"
  ⟨[repAtLeast .digit 10, ch '.', rep .digit 1 9], none, "unix_fractional"⟩,
  -- unix_plain: "[0-9]{10,}"
  ⟨[repAtLeast .digit 10], none, "unix_plain"⟩
]

/-! ### Numeric epoch parsers

`strtoul(s, &endptr, 10)` is modelled by `strtoul10` with the C-standard
semantics: optional leading whitespace, an optional sign, a run of decimal
digits; on overflow the value is clamped to `ULONG_MAX` and `ERANGE` is
reported; a `-` sign negates the converted value in unsigned (mod `2^64`)
arithmetic; when no digits are converted, `endptr` is the original
pointer.  The `(time_t)seconds` conversion is the two's-complement wrap
of a 64-bit unsigned value into a signed 64-bit `time_t` (`toTimeT`). -/

/-- ULONG_MAX on the 64-bit platforms `ts.c` asserts at compile time. -/
def ULONG_MAX : Nat := 2 ^ 64 - 1

/-- C `isspace` in the POSIX locale (`'\x0b'` is vertical tab, `'\x0c'`
form feed). -/
def isSpaceC (c : Char) : Bool :=
  c = ' ' || c = '\t' || c = '\n' || c = '\x0b' || c = '\x0c' || c = '\r'

/-- Numeric value of a decimal digit character. -/
def digitVal (c : Char) : Nat := c.toNat - 48

/-- Value of a digit string read in base 10 (the accumulation `strtoul`
performs, before any clamping). -/
def valOf (ds : List Char) : Nat := ds.foldl (fun a c => a * 10 + digitVal c) 0

/-- Result of a `strtoul` call: the returned value, whether `errno` was set
to `ERANGE`, and the remainder of the string starting at `*endptr`. -/
structure StrtoulOut where
  value : Nat
  erange : Bool
  rest : List Char
deriving DecidableEq, Repr

/-- Model of `strtoul(s, &endptr, 10)`. -/
def strtoul10 (s : List Char) : StrtoulOut :=
  let s1 := s.dropWhile isSpaceC
  let neg : Bool := s1.head? = some '-'
  let s2 := if s1.head? = some '-' || s1.head? = some '+' then s1.tail else s1
  let ds := s2.takeWhile Char.isDigit
  let rest2 := s2.dropWhile Char.isDigit
  if ds.isEmpty then ⟨0, false, s⟩
  else if valOf ds > ULONG_MAX then ⟨ULONG_MAX, true, rest2⟩
  else if neg then ⟨(2 ^ 64 - valOf ds % 2 ^ 64) % 2 ^ 64, false, rest2⟩
  else ⟨valOf ds, false, rest2⟩

/-- The C conversion `(time_t)seconds` of an `unsigned long` value into the
signed 64-bit `time_t` (two's-complement wrap). -/
def toTimeT (v : Nat) : Int := if v < 2 ^ 63 then (v : Int) else (v : Int) - 2 ^ 64

/-- Model of `parse_unix_timestamp_plain` in `ts.c`: `strtoul` the whole
string; fail with `TS_ERROR_TIME_PARSE` on `ERANGE`, a non-empty remainder
(`*endptr != '\0'`), or a converted value of zero; otherwise store
`(time_t)seconds`.  The out-parameter becomes the second component (kept
`none` on failure paths, where no caller reads it). -/
def parse_unix_timestamp_plain (timestamp_str : Option (List Char)) :
    ts_error_t × Option Int :=
  match timestamp_str with
  | none => (.TS_ERROR_INVALID_ARGUMENT, none)
  | some s =>
    let r := strtoul10 s
    if r.erange || !r.rest.isEmpty || r.value == 0 then (.TS_ERROR_TIME_PARSE, none)
    else (.TS_SUCCESS, some (toTimeT r.value))

/-- Model of `parse_unix_timestamp_fractional` in `ts.c`: `strchr` for the
first `'.'` (no dot → `TS_ERROR_TIME_PARSE`); the dot is temporarily
overwritten with `'\0'` so `strtoul` sees exactly the part before the
first dot, validated exactly as in the plain parser; the fractional
digits never reach the result. -/
def parse_unix_timestamp_fractional (timestamp_str : Option (List Char)) :
    ts_error_t × Option Int :=
  match timestamp_str with
  | none => (.TS_ERROR_INVALID_ARGUMENT, none)
  | some s =>
    if !(s.contains '.') then (.TS_ERROR_TIME_PARSE, none)
    else
      let intPart := s.takeWhile (fun c => c ≠ '.')
      let r := strtoul10 intPart
      if r.erange || !r.rest.isEmpty || r.value == 0 then (.TS_ERROR_TIME_PARSE, none)
      else (.TS_SUCCESS, some (toTimeT r.value))

/-! ### Calendar parser (`parse_timestamp_strptime`)

The libc calls are outside the repository, so they enter as oracle
parameters: `strptimeRes` is the result of
`strptime(timestamp_str, format, &tm_info)` on the zero-initialized
struct (`none` = `NULL` return); `now1`/`now2` are the two successive
`time(NULL)` calls (`-1` = failure, as in C); `localtimeRes` is
`localtime(&now1)`; `mkt tm` returns the `mktime` result (`-1` = failure)
together with the normalized struct that `mktime` writes back in place.
The control flow around them is translated line by line from `ts.c`. -/

/-- The `struct tm` fields used by `ts.c`. -/
structure tm_t where
  tm_sec : Int := 0
  tm_min : Int := 0
  tm_hour : Int := 0
  tm_mday : Int := 0
  tm_mon : Int := 0
  tm_year : Int := 0
deriving DecidableEq, Repr

/-- SECONDS_PER_DAY from `ts.c`. -/
def SECONDS_PER_DAY : Int := 86400

/-- FUTURE_THRESHOLD_DAYS from `ts.c`. -/
def FUTURE_THRESHOLD_DAYS : Int := 30

/-- The year-defaulting step of `parse_timestamp_strptime`: when
`strptime` left `tm_year == 0`, take the current local year (via
`time(NULL)`/`localtime`), failing with `TS_ERROR_SYSTEM` when either
call fails. -/
def default_tm_year (tm0 : tm_t) (now1 : Int) (localtimeRes : Option tm_t) :
    ts_error_t ⊕ tm_t :=
  if tm0.tm_year = 0 then
    if now1 = -1 then .inl .TS_ERROR_SYSTEM
    else
      match localtimeRes with
      | none => .inl .TS_ERROR_SYSTEM
      | some nowTm => .inr { tm0 with tm_year := nowTm.tm_year }
  else .inr tm0

/-- The month/day defaulting steps of `parse_timestamp_strptime`:
`tm_mon == 0 → 0` (a no-op, as in the source) and `tm_mday == 0 → 1`. -/
def default_tm_fields (tm1 : tm_t) : tm_t :=
  let tm2 := if tm1.tm_mon = 0 then { tm1 with tm_mon := 0 } else tm1
  if tm2.tm_mday = 0 then { tm2 with tm_mday := 1 } else tm2

/-- Model of `parse_timestamp_strptime` in `ts.c` (libc calls as oracles,
see the section comment). -/
def parse_timestamp_strptime (strptimeRes : Option tm_t) (now1 : Int)
    (localtimeRes : Option tm_t) (mkt : tm_t → Int × tm_t) (now2 : Int)
    (timestamp_str : Option (List Char)) (format : Option String) :
    ts_error_t × Option Int :=
  match timestamp_str, format with
  | none, _ => (.TS_ERROR_INVALID_ARGUMENT, none)
  | some _, none => (.TS_ERROR_INVALID_ARGUMENT, none)
  | some _, some _ =>
    match strptimeRes with
    | none => (.TS_ERROR_TIME_PARSE, none)
    | some tm0 =>
      match default_tm_year tm0 now1 localtimeRes with
      | .inl e => (e, none)
      | .inr tm1 =>
        let r1 := mkt (default_tm_fields tm1)
        if r1.1 = -1 then (.TS_ERROR_TIME_PARSE, none)
        else if now2 ≠ -1 ∧ r1.1 > now2 + SECONDS_PER_DAY * FUTURE_THRESHOLD_DAYS then
          let r2 := mkt { r1.2 with tm_year := r1.2.tm_year - 1 }
          if r2.1 = -1 then (.TS_ERROR_TIME_PARSE, none)
          else (.TS_SUCCESS, some r2.1)
        else (.TS_SUCCESS, some r1.1)

/-! ### Extractor: parse-first-match (`parse_timestamp_in_line`)

The calendar parse of an entry is `parse_timestamp_strptime` with its
libc oracles fixed by the environment; it enters here as one oracle
`cal : substring → format → ts_error_t × Option Int`.  All eight table
patterns are valid EREs, so the `regcomp`-failure skip is dead code and
not modelled. -/

/-- MAX_TIMESTAMP_LENGTH from `ts.c`. -/
def MAX_TIMESTAMP_LENGTH : Nat := 128

/-- Dispatch on one matched entry, mirroring the `strcmp` chain in
`parse_timestamp_in_line`: `unix_fractional` and `unix_plain` go to the
numeric parsers, entries with a format string to the calendar parser,
and the initial value `TS_ERROR_TIME_PARSE` survives otherwise. -/
def entryParse (cal : List Char → String → ts_error_t × Option Int)
    (e : timestamp_format_t) (sub : List Char) : ts_error_t × Option Int :=
  if e.name = "unix_fractional" then parse_unix_timestamp_fractional (some sub)
  else if e.name = "unix_plain" then parse_unix_timestamp_plain (some sub)
  else
    match e.format with
    | some f => cal sub f
    | none => (.TS_ERROR_TIME_PARSE, none)

/-- The loop body of `parse_timestamp_in_line` over the remaining table
entries: on a regex match, extract the matched substring (skipping the
entry when the match is ≥ MAX_TIMESTAMP_LENGTH long), parse it, and
return immediately on `TS_SUCCESS`; otherwise continue with the next
entry. -/
def parse_timestamp_in_line_go (cal : List Char → String → ts_error_t × Option Int)
    (l : List Char) : List timestamp_format_t → ts_error_t × Option Int
  | [] => (.TS_ERROR_TIME_PARSE, none)
  | e :: es =>
    match regexecM e.pattern l with
    | some sp =>
      if sp.2 - sp.1 ≥ MAX_TIMESTAMP_LENGTH then parse_timestamp_in_line_go cal l es
      else
        let pr := entryParse cal e ((l.drop sp.1).take (sp.2 - sp.1))
        if pr.1 = .TS_SUCCESS then pr
        else parse_timestamp_in_line_go cal l es
    | none => parse_timestamp_in_line_go cal l es

/-- Model of `parse_timestamp_in_line` in `ts.c`. -/
def parse_timestamp_in_line (cal : List Char → String → ts_error_t × Option Int)
    (line : Option (List Char)) : ts_error_t × Option Int :=
  match line with
  | none => (.TS_ERROR_INVALID_ARGUMENT, none)
  | some l => parse_timestamp_in_line_go cal l timestamp_formats

/-! ### Extractor: leftmost-span locate (`find_timestamp_match`) -/

/-- The best-match update of `find_timestamp_match`'s loop: adopt the new
span exactly when no best exists yet (`best_match_start == -1`) or the
new start offset is strictly smaller. -/
def pickBest (best : Option (Nat × Nat)) (m : Nat × Nat) : Option (Nat × Nat) :=
  match best with
  | none => some m
  | some b => if m.1 < b.1 then some m else some b

/-- Model of `find_timestamp_match` in `ts.c`: walk the whole table, keep
the match with the strictly smallest start offset (so on ties the earlier
entry's span is kept), and return it with `TS_SUCCESS`, or
`TS_ERROR_TIME_PARSE` when no entry matched. -/
def find_timestamp_match (line : Option (List Char)) :
    ts_error_t × Option (Nat × Nat) :=
  match line with
  | none => (.TS_ERROR_INVALID_ARGUMENT, none)
  | some l =>
    let best := timestamp_formats.foldl (fun best e =>
      match regexecM e.pattern l with
      | some m => pickBest best m
      | none => best) none
    match best with
    | some m => (.TS_SUCCESS, some m)
    | none => (.TS_ERROR_TIME_PARSE, none)

/-- The spans of all table entries that match `l`, in table order (used to
state what `find_timestamp_match` selects). -/
def matchList (l : List Char) : List (Nat × Nat) :=
  timestamp_formats.filterMap (fun e => regexecM e.pattern l)

/-! ### Line rewriter (`replace_timestamp_in_line`) -/

/-- Model of `replace_timestamp_in_line` in `ts.c`.  The fixed-capacity
output buffer becomes the returned list plus the explicit `output_size`
capacity check; on failure nothing has been written (the overflow checks
precede every `memcpy`), which the `none` component records.  The
catch-all second branch is C's `find_result != TS_SUCCESS` path
(`find_timestamp_match` on a non-null line only ever returns
`(TS_SUCCESS, some span)` or `(TS_ERROR_TIME_PARSE, none)`). -/
def replace_timestamp_in_line (output_size : Nat)
    (line new_timestamp : Option (List Char)) : ts_error_t × Option (List Char) :=
  match line, new_timestamp with
  | none, _ => (.TS_ERROR_INVALID_ARGUMENT, none)
  | some _, none => (.TS_ERROR_INVALID_ARGUMENT, none)
  | some l, some nt =>
    match find_timestamp_match (some l) with
    | (.TS_SUCCESS, some sp) =>
      let after := l.drop sp.2
      if sp.1 + nt.length + after.length ≥ output_size then
        (.TS_ERROR_BUFFER_OVERFLOW, none)
      else (.TS_SUCCESS, some (l.take sp.1 ++ nt ++ after))
    | _ =>
      if l.length ≥ output_size then (.TS_ERROR_BUFFER_OVERFLOW, none)
      else (.TS_SUCCESS, some l)

/-! ### Safe text primitives (`safe_strcat`, `safe_snprintf`) -/

/-- Worker for decimal rendering: prepend the digits of `m` to `acc`
(`fuel` bounds the recursion; `m ≤ fuel` suffices). -/
def decDigitsGo : Nat → Nat → List Char → List Char
  | 0, _, acc => acc
  | fuel + 1, m, acc =>
    if m = 0 then acc
    else decDigitsGo fuel (m / 10) (Char.ofNat (48 + m % 10) :: acc)

/-- Decimal digit string of a natural number (no sign, no padding). -/
def decDigits (n : Nat) : List Char :=
  if n = 0 then ['0'] else decDigitsGo (n + 1) n []

/-- The text `printf("%ld", i)` produces. -/
def intStrC (i : Int) : List Char :=
  if i < 0 then '-' :: decDigits i.natAbs else decDigits i.natAbs

/-- The text `printf("%0*ld", w, i)` produces: zero-padded to a minimum
field width `w`, the padding coming after the sign. -/
def cPad (w : Nat) (i : Int) : List Char :=
  if i < 0 then
    '-' :: (List.replicate (w - 1 - (decDigits i.natAbs).length) '0' ++ decDigits i.natAbs)
  else List.replicate (w - (decDigits i.natAbs).length) '0' ++ decDigits i.natAbs

/-- Model of `safe_strcat` in `ts.c`.  The destination buffer is modelled
by its current string content; the pair returned is the status code and
the content after the call (`strnlen(dest, dest_size)` is
`min d.length dest_size`; every failure returns before the `memcpy`, so
the content is unchanged there). -/
def safe_strcat (dest : Option (List Char)) (dest_size : Nat)
    (src : Option (List Char)) : ts_error_t × Option (List Char) :=
  match dest, src with
  | none, _ => (.TS_ERROR_INVALID_ARGUMENT, none)
  | some d, none => (.TS_ERROR_INVALID_ARGUMENT, some d)
  | some d, some s =>
    if min d.length dest_size + s.length ≥ dest_size then
      (.TS_ERROR_BUFFER_OVERFLOW, some d)
    else (.TS_SUCCESS, some (d ++ s))

/-- Model of `safe_snprintf` in `ts.c`.  `rendered` is the full text the
`vsnprintf` call would produce for the format and arguments (its length
is `vsnprintf`'s return value; encoding failures, impossible for the
numeric conversions `ts.c` uses, are not modelled).  `vsnprintf` itself
truncates its write to the capacity, and the wrapper reports
`TS_ERROR_BUFFER_OVERFLOW` whenever the untruncated length would not
fit. -/
def safe_snprintf (dest : Option (List Char)) (dest_size : Nat)
    (format : Option String) (rendered : List Char) : ts_error_t × Option (List Char) :=
  match dest, format with
  | none, _ => (.TS_ERROR_INVALID_ARGUMENT, none)
  | some d, none => (.TS_ERROR_INVALID_ARGUMENT, some d)
  | some d, some _ =>
    let written := if dest_size = 0 then d else rendered.take (dest_size - 1)
    if rendered.length ≥ dest_size then (.TS_ERROR_BUFFER_OVERFLOW, some written)
    else (.TS_SUCCESS, some written)

/-! ### Time formatter (`format_timestamp_with_subsecond`)

Pass 1 appends into the local `result[MAX_FORMAT_LENGTH]` buffer through
`safe_snprintf(result + strlen(result), sizeof(result) - strlen(result), …)`
and `safe_strcat(result, sizeof(result), …)`; both guards amount to
"accumulated length + piece length ≥ MAX_FORMAT_LENGTH is an overflow".
The pieces below are the exact `printf` conversions of `ts.c`;
`nanoseconds / 1000` is C `long` division (truncation toward zero). -/

/-- MAX_FORMAT_LENGTH from `ts.c`. -/
def MAX_FORMAT_LENGTH : Nat := 256

/-- Substitution text for `%.S`: `"%02d.%06ld"` of `tm_sec` and
`nanoseconds / 1000`. -/
def pieceDotS (tm : tm_t) (nsecs : Int) : List Char :=
  cPad 2 tm.tm_sec ++ '.' :: cPad 6 (Int.tdiv nsecs 1000)

/-- Substitution text for `%.s`: `"%ld.%06ld"` of `seconds` and
`nanoseconds / 1000`. -/
def pieceDots (secs nsecs : Int) : List Char :=
  intStrC secs ++ '.' :: cPad 6 (Int.tdiv nsecs 1000)

/-- Substitution text for `%.T`: `strftime "%H:%M:%S"` of the tm (whose
8-character output never trips the 64-byte `time_str` check) followed by
`".%06ld"` of `nanoseconds / 1000`. -/
def pieceDotT (tm : tm_t) (nsecs : Int) : List Char :=
  cPad 2 tm.tm_hour ++ ':' :: cPad 2 tm.tm_min ++ ':' :: cPad 2 tm.tm_sec
    ++ '.' :: cPad 6 (Int.tdiv nsecs 1000)

/-- Substitution text for `%N`: `"%09ld"` of the nanoseconds. -/
def pieceN (nsecs : Int) : List Char := cPad 9 nsecs

/-- Substitution text for `%s`: `"%ld"` of the epoch seconds. -/
def pieceLowS (secs : Int) : List Char := intStrC secs

/-- Pass 1 of `format_timestamp_with_subsecond`: scan the format string
left to right, substituting the five custom tokens (tested in the
source's order `%.S`, `%.s`, `%.T`, `%N`, `%s`) and copying every other
character literally, with the bounded-buffer overflow guard of each
append. -/
def pass1 (secs nsecs : Int) (tm : tm_t) :
    List Char → List Char → ts_error_t × Option (List Char)
  | acc, [] => (.TS_SUCCESS, some acc)
  | acc, '%' :: '.' :: 'S' :: r =>
    if acc.length + (pieceDotS tm nsecs).length ≥ MAX_FORMAT_LENGTH then
      (.TS_ERROR_BUFFER_OVERFLOW, none)
    else pass1 secs nsecs tm (acc ++ pieceDotS tm nsecs) r
  | acc, '%' :: '.' :: 's' :: r =>
    if acc.length + (pieceDots secs nsecs).length ≥ MAX_FORMAT_LENGTH then
      (.TS_ERROR_BUFFER_OVERFLOW, none)
    else pass1 secs nsecs tm (acc ++ pieceDots secs nsecs) r
  | acc, '%' :: '.' :: 'T' :: r =>
    if acc.length + (pieceDotT tm nsecs).length ≥ MAX_FORMAT_LENGTH then
      (.TS_ERROR_BUFFER_OVERFLOW, none)
    else pass1 secs nsecs tm (acc ++ pieceDotT tm nsecs) r
  | acc, '%' :: 'N' :: r =>
    if acc.length + (pieceN nsecs).length ≥ MAX_FORMAT_LENGTH then
      (.TS_ERROR_BUFFER_OVERFLOW, none)
    else pass1 secs nsecs tm (acc ++ pieceN nsecs) r
  | acc, '%' :: 's' :: r =>
    if acc.length + (pieceLowS secs).length ≥ MAX_FORMAT_LENGTH then
      (.TS_ERROR_BUFFER_OVERFLOW, none)
    else pass1 secs nsecs tm (acc ++ pieceLowS secs) r
  | acc, c :: r =>
    if acc.length + 1 ≥ MAX_FORMAT_LENGTH then (.TS_ERROR_BUFFER_OVERFLOW, none)
    else pass1 secs nsecs tm (acc ++ [c]) r

/-- Modelled from the spec (§4.8 pass 1): the pure left-to-right
substitution the spec describes — each custom token replaced by its
substitution text, every other character copied through literally —
with no buffer bound.  Stated for comparison with `pass1`. -/
def pass1_spec (secs nsecs : Int) (tm : tm_t) : List Char → List Char
  | [] => []
  | '%' :: '.' :: 'S' :: r => pieceDotS tm nsecs ++ pass1_spec secs nsecs tm r
  | '%' :: '.' :: 's' :: r => pieceDots secs nsecs ++ pass1_spec secs nsecs tm r
  | '%' :: '.' :: 'T' :: r => pieceDotT tm nsecs ++ pass1_spec secs nsecs tm r
  | '%' :: 'N' :: r => pieceN nsecs ++ pass1_spec secs nsecs tm r
  | '%' :: 's' :: r => pieceLowS secs ++ pass1_spec secs nsecs tm r
  | c :: r => c :: pass1_spec secs nsecs tm r

/-- Model of `format_timestamp_with_subsecond` in `ts.c`.  `localtimeRes`
is the `localtime(&timestamp->seconds)` oracle; `strf res tm` is the
pass-2 `strftime(temp_buffer, sizeof(temp_buffer), res, tm)` oracle
(`none` models a zero return).  Pass 2 runs exactly when the pass-1
result still contains a `'%'` (the `strstr(result, "%")` test). -/
def format_timestamp_with_subsecond
    (strf : List Char → tm_t → Option (List Char))
    (localtimeRes : Option tm_t) (buffer_size : Nat)
    (format : Option (List Char)) (timestamp : Option high_res_time_t) :
    ts_error_t × Option (List Char) :=
  match format, timestamp with
  | none, _ => (.TS_ERROR_INVALID_ARGUMENT, none)
  | some _, none => (.TS_ERROR_INVALID_ARGUMENT, none)
  | some f, some t =>
    match localtimeRes with
    | none => (.TS_ERROR_SYSTEM, none)
    | some tm =>
      match pass1 t.seconds t.nanoseconds tm [] f with
      | (.TS_SUCCESS, some res) =>
        if res.contains '%' then
          match strf res tm with
          | none => (.TS_ERROR_BUFFER_OVERFLOW, none)
          | some out =>
            if out.length ≥ buffer_size then (.TS_ERROR_BUFFER_OVERFLOW, none)
            else (.TS_SUCCESS, some out)
        else
          if res.length ≥ buffer_size then (.TS_ERROR_BUFFER_OVERFLOW, none)
          else (.TS_SUCCESS, some res)
      | other => other

/-! ### Delta-mode rendering (the `-i` and `-s` blocks of `main`)

The incremental (`incremental_mode`) and since-start (`since_start_mode`)
branches of `main` share this rendering of an elapsed
`diff_sec`/`diff_nsec` into the `timestamp[MAX_FORMAT_LENGTH]` buffer:
an `strstr` chain picks `%.s`, then `%.S`, then `%.T`, and the chosen
`safe_snprintf` conversion is the whole output; only when none of the
three tokens occurs does the format string reach `strftime` (over
`gmtime(&diff_sec)`), which `strfElse` models (`none` = `gmtime`
returned `NULL` or `strftime` returned 0, leaving the initial
`TS_ERROR_BUFFER_OVERFLOW`).  C `long` `/` and `%` truncate toward
zero, hence `Int.tdiv`/`Int.tmod`. -/
/-- Model of `strstr(hay, needle) != NULL`: does `needle` occur as a
contiguous substring of `hay`? -/
def strstrC (needle : List Char) : List Char → Bool
  | [] => needle.isEmpty
  | h :: t => needle.isPrefixOf (h :: t) || strstrC needle t

def render_delta (strfElse : Option (List Char)) (format : List Char)
    (diff_sec diff_nsec : Int) : ts_error_t × Option (List Char) :=
  if strstrC ['%', '.', 's'] format then
    let rendered := intStrC diff_sec ++ '.' :: cPad 6 (Int.tdiv diff_nsec 1000)
    if rendered.length ≥ MAX_FORMAT_LENGTH then (.TS_ERROR_BUFFER_OVERFLOW, none)
    else (.TS_SUCCESS, some rendered)
  else if strstrC ['%', '.', 'S'] format then
    let rendered := cPad 2 (Int.tmod diff_sec 60) ++ '.' :: cPad 6 (Int.tdiv diff_nsec 1000)
    if rendered.length ≥ MAX_FORMAT_LENGTH then (.TS_ERROR_BUFFER_OVERFLOW, none)
    else (.TS_SUCCESS, some rendered)
  else if strstrC ['%', '.', 'T'] format then
    let rendered :=
      cPad 2 (Int.tdiv diff_sec 3600) ++ ':' :: cPad 2 (Int.tdiv (Int.tmod diff_sec 3600) 60)
        ++ ':' :: cPad 2 (Int.tmod diff_sec 60) ++ '.' :: cPad 6 (Int.tdiv diff_nsec 1000)
    if rendered.length ≥ MAX_FORMAT_LENGTH then (.TS_ERROR_BUFFER_OVERFLOW, none)
    else (.TS_SUCCESS, some rendered)
  else
    match strfElse with
    | some out => (.TS_SUCCESS, some out)
    | none => (.TS_ERROR_BUFFER_OVERFLOW, none)

/-! ## Claim C1: parse-first-match extraction -/

/-- The observable effect of one loop iteration of
`parse_timestamp_in_line` on entry `e`: `some` of the returned pair when
the entry's regex matches (with an extractable, < MAX_TIMESTAMP_LENGTH
substring) and its parser reports `TS_SUCCESS`; `none` when the loop
would continue to the next entry. -/
def entryOutcome (cal : List Char → String → ts_error_t × Option Int)
    (l : List Char) (e : timestamp_format_t) : Option (ts_error_t × Option Int) :=
  match regexecM e.pattern l with
  | none => none
  | some sp =>
    if sp.2 - sp.1 ≥ MAX_TIMESTAMP_LENGTH then none
    else
      let pr := entryParse cal e ((l.drop sp.1).take (sp.2 - sp.1))
      if pr.1 = .TS_SUCCESS then some pr else none

lemma go_eq_findSome (cal : List Char → String → ts_error_t × Option Int)
    (l : List Char) :
    ∀ es : List timestamp_format_t,
      parse_timestamp_in_line_go cal l es
        = (es.findSome? (entryOutcome cal l)).getD (.TS_ERROR_TIME_PARSE, none) := by
  intro es
  induction es with
  | nil => rfl
  | cons e es ih =>
    rw [List.findSome?_cons]
    simp only [parse_timestamp_in_line_go, entryOutcome]
    cases h : regexecM e.pattern l with
    | none => simpa using ih
    | some sp =>
      by_cases hlen : sp.2 - sp.1 ≥ MAX_TIMESTAMP_LENGTH
      · simpa [hlen] using ih
      · by_cases hpr : (entryParse cal e ((l.drop sp.1).take (sp.2 - sp.1))).1 = .TS_SUCCESS
        · simp [hlen, hpr]
        · simpa [hlen, hpr] using ih

/-- Claim C1: `parse_timestamp_in_line` walks the pattern table in its
fixed order and returns the parse result of the first table entry that
both matches somewhere in the line and parses successfully (selection by
table order and parse success only — the match positions play no role,
so an earlier entry wins even when a later entry's match starts earlier
in the line); if no entry both matches and parses it returns
`TS_ERROR_TIME_PARSE`, and a NULL line pointer returns
`TS_ERROR_INVALID_ARGUMENT`. -/
theorem parse_timestamp_in_line_first_success :
    (∀ cal, parse_timestamp_in_line cal none = (.TS_ERROR_INVALID_ARGUMENT, none))
    ∧ (∀ cal l, parse_timestamp_in_line cal (some l)
        = (timestamp_formats.findSome? (entryOutcome cal l)).getD
            (.TS_ERROR_TIME_PARSE, none)) := by
  constructor
  · intro cal; rfl
  · intro cal l
    simpa [parse_timestamp_in_line] using go_eq_findSome cal l timestamp_formats

/-! ## Claim C2: leftmost-span locate -/

lemma foldl_regexec_filterMap (l : List Char) :
    ∀ (es : List timestamp_format_t) (b : Option (Nat × Nat)),
      es.foldl (fun best e =>
        match regexecM e.pattern l with
        | some m => pickBest best m
        | none => best) b
      = (es.filterMap (fun e => regexecM e.pattern l)).foldl pickBest b := by
  intro es
  induction es with
  | nil => intro b; rfl
  | cons e es ih =>
    intro b
    simp only [List.foldl_cons, List.filterMap_cons]
    cases h : regexecM e.pattern l with
    | none => simpa [h] using ih b
    | some m => simpa [h] using ih (pickBest b m)

lemma pickBest_foldl_some :
    ∀ (ms : List (Nat × Nat)) (b : Nat × Nat),
      ∃ c, ms.foldl pickBest (some b) = some c ∧
        ((c = b ∧ ∀ x ∈ ms, b.1 ≤ x.1) ∨
         (∃ pre post, ms = pre ++ c :: post ∧ c.1 < b.1 ∧
           (∀ x ∈ pre, c.1 < x.1) ∧ (∀ x ∈ post, c.1 ≤ x.1))) := by
  intro ms
  induction ms with
  | nil => exact fun b => ⟨b, rfl, Or.inl ⟨rfl, by simp⟩⟩
  | cons m ms ih =>
    intro b
    by_cases h : m.1 < b.1
    · obtain ⟨c, hc, hcase⟩ := ih m
      refine ⟨c, ?_, Or.inr ?_⟩
      · simpa [pickBest, h] using hc
      · rcases hcase with ⟨rfl, hall⟩ | ⟨pre, post, hms, hlt, hpre, hpost⟩
        · exact ⟨[], ms, rfl, h, by simp, hall⟩
        · refine ⟨m :: pre, post, by rw [hms]; rfl, lt_trans hlt h, ?_, hpost⟩
          intro x hx
          rcases List.mem_cons.mp hx with rfl | hx
          · exact hlt
          · exact hpre x hx
    · obtain ⟨c, hc, hcase⟩ := ih b
      refine ⟨c, ?_, ?_⟩
      · simpa [pickBest, h] using hc
      · rcases hcase with ⟨rfl, hall⟩ | ⟨pre, post, hms, hlt, hpre, hpost⟩
        · refine Or.inl ⟨rfl, ?_⟩
          intro x hx
          rcases List.mem_cons.mp hx with rfl | hx
          · exact le_of_not_lt h
          · exact hall x hx
        · refine Or.inr ⟨m :: pre, post, by rw [hms]; rfl, hlt, ?_, hpost⟩
          intro x hx
          rcases List.mem_cons.mp hx with rfl | hx
          · exact lt_of_lt_of_le hlt (le_of_not_lt h)
          · exact hpre x hx

lemma pickBest_foldl_char (ms : List (Nat × Nat)) (c : Nat × Nat)
    (h : ms.foldl pickBest none = some c) :
    ∃ pre post, ms = pre ++ c :: post ∧
      (∀ x ∈ pre, c.1 < x.1) ∧ (∀ x ∈ post, c.1 ≤ x.1) := by
  cases ms with
  | nil => simp at h
  | cons m ms =>
    have hstep : (m :: ms).foldl pickBest none = ms.foldl pickBest (some m) := rfl
    rw [hstep] at h
    obtain ⟨c', hc', hcase⟩ := pickBest_foldl_some ms m
    rw [hc'] at h
    injection h with h
    subst h
    rcases hcase with ⟨rfl, hall⟩ | ⟨pre, post, hms, hlt, hpre, hpost⟩
    · exact ⟨[], ms, rfl, by simp, hall⟩
    · refine ⟨m :: pre, post, by rw [hms]; rfl, ?_, hpost⟩
      intro x hx
      rcases List.mem_cons.mp hx with rfl | hx
      · exact hlt
      · exact hpre x hx

lemma find_timestamp_match_as_fold (l : List Char) :
    find_timestamp_match (some l) =
      match (matchList l).foldl pickBest none with
      | some m => (.TS_SUCCESS, some m)
      | none => (.TS_ERROR_TIME_PARSE, none) := by
  simp only [find_timestamp_match, matchList]
  rw [foldl_regexec_filterMap]

/-- Claim C2: `find_timestamp_match` checks every pattern-table entry for
a regex match only (the spans collected in `matchList`, with no parsing
involved) and returns the span whose start offset is smallest across all
entries, ties between equal start offsets going to the earlier table
entry: the returned span occurs in the table-ordered match list with
every earlier span starting strictly further right and every later span
starting no further left.  When no entry matches it reports
`TS_ERROR_TIME_PARSE`, and on the line "1755921813 test line" it returns
the span [0, 10). -/
theorem find_timestamp_match_leftmost :
    (∀ l s e, find_timestamp_match (some l) = (.TS_SUCCESS, some (s, e)) →
      ∃ pre post, matchList l = pre ++ (s, e) :: post ∧
        (∀ x ∈ pre, s < x.1) ∧ (∀ x ∈ post, s ≤ x.1))
    ∧ (∀ l, matchList l = [] →
        find_timestamp_match (some l) = (.TS_ERROR_TIME_PARSE, none))
    ∧ find_timestamp_match (some "1755921813 test line".toList)
        = (.TS_SUCCESS, some (0, 10)) := by
  refine ⟨?_, ?_, by decide⟩
  · intro l s e hfind
    rw [find_timestamp_match_as_fold] at hfind
    cases hfold : (matchList l).foldl pickBest none with
    | none => rw [hfold] at hfind; simp at hfind
    | some c =>
      rw [hfold] at hfind
      simp only at hfind
      have : c = (s, e) := by
        injection hfind with _ h2
        injection h2
      subst this
      exact pickBest_foldl_char _ _ hfold
  · intro l hml
    rw [find_timestamp_match_as_fold, hml]
    rfl

/-- Witness for C2 at concrete inputs: the decomposition at the example
line (discharging the success hypothesis via the example equation), and
the no-match failure on a line with no timestamp. -/
theorem find_timestamp_match_leftmost_witness :
    (∃ pre post, matchList "1755921813 test line".toList = pre ++ (0, 10) :: post ∧
      (∀ x ∈ pre, 0 < x.1) ∧ (∀ x ∈ post, 0 ≤ x.1))
    ∧ find_timestamp_match (some "no timestamp here".toList)
        = (.TS_ERROR_TIME_PARSE, none) :=
  ⟨find_timestamp_match_leftmost.1 _ 0 10 find_timestamp_match_leftmost.2.2,
   find_timestamp_match_leftmost.2.1 _ (by decide)⟩

/-! ## Claim C3: the pattern table -/

/-- Claim C3 counterexample: the claim says the table consists of exactly
seven fixed entries, but the table (translating the eight-element C
array, its NULL sentinel excluded) has eight. -/
theorem timestamp_formats_not_seven : timestamp_formats.length ≠ 7 := by decide

/-- Claim C3 (amended): the pattern table consists of exactly eight fixed
entries, in the exact listed order (syslog, ISO-8601, RFC, lastlog,
short, short-with-year, Unix fractional epoch, Unix plain epoch), the
fractional-epoch entry coming before the plain-epoch entry — so on
"1755921813.123456 x", where both Unix entries match at the same leftmost
position, the extractor returns the fractional entry's parse 1755921813
rather than a plain-epoch truncation. -/
theorem timestamp_formats_order :
    timestamp_formats.map timestamp_format_t.name =
      ["syslog", "ISO-8601", "RFC", "lastlog", "short", "short_with_year",
       "unix_fractional", "unix_plain"]
    ∧ timestamp_formats.length = 8
    ∧ parse_timestamp_in_line (fun _ _ => (.TS_ERROR_TIME_PARSE, none))
        (some "1755921813.123456 x".toList) = (.TS_SUCCESS, some 1755921813) := by
  refine ⟨by decide, by decide, by decide⟩

/-! ## Claim C4: the numeric epoch parsers -/

lemma isDigit_facts (c : Char) (h : c.isDigit = true) :
    isSpaceC c = false ∧ c ≠ '-' ∧ c ≠ '+' ∧ c ≠ '.' ∧ c ≠ '%' := by
  have key : ∀ d : Char, d.isDigit = false → c ≠ d := by
    intro d hd he
    rw [he] at h
    rw [h] at hd
    exact absurd hd (by decide)
  have h1 := key ' ' (by decide)
  have h2 := key '\t' (by decide)
  have h3 := key '\n' (by decide)
  have h4 := key '\x0b' (by decide)
  have h5 := key '\x0c' (by decide)
  have h6 := key '\r' (by decide)
  exact ⟨by simp [isSpaceC, h1, h2, h3, h4, h5, h6],
    key '-' (by decide), key '+' (by decide), key '.' (by decide), key '%' (by decide)⟩

lemma strtoul10_all_digits (ds : List Char) (h : ∀ c ∈ ds, c.isDigit = true) :
    strtoul10 ds =
      if valOf ds > ULONG_MAX then ⟨ULONG_MAX, true, []⟩ else ⟨valOf ds, false, []⟩ := by
  cases ds with
  | nil => simp [strtoul10, valOf, ULONG_MAX]
  | cons c t =>
    have hd := h c (List.mem_cons_self c t)
    obtain ⟨hsp, hminus, hplus, _, _⟩ := isDigit_facts c hd
    have htw : (c :: t).takeWhile Char.isDigit = c :: t := List.takeWhile_eq_self_iff.mpr h
    have hdw : (c :: t).dropWhile Char.isDigit = [] := List.dropWhile_eq_nil_iff.mpr h
    simp [strtoul10, List.dropWhile_cons, hsp, hminus, hplus, htw, hdw]

lemma takeWhile_dropWhile_append (p : Char → Bool) :
    ∀ (ds : List Char), (∀ x ∈ ds, p x = true) → ∀ c rest, p c = false →
      ((ds ++ c :: rest).takeWhile p = ds ∧ (ds ++ c :: rest).dropWhile p = c :: rest) := by
  intro ds
  induction ds with
  | nil => intro _ c rest hc; simp [List.takeWhile_cons, List.dropWhile_cons, hc]
  | cons d t ih =>
    intro h c rest hc
    have hd := h d (List.mem_cons_self d t)
    have ht : ∀ x ∈ t, p x = true := fun x hx => h x (List.mem_cons_of_mem d hx)
    obtain ⟨h1, h2⟩ := ih ht c rest hc
    simp [List.takeWhile_cons, List.dropWhile_cons, hd, h1, h2]

/-- The shared validation-and-store tail of both numeric parsers, reduced
on an all-digit input. -/
lemma strtoul_check (ds : List Char) (h : ∀ c ∈ ds, c.isDigit = true) :
    (if (strtoul10 ds).erange || !(strtoul10 ds).rest.isEmpty || (strtoul10 ds).value == 0
       then ((.TS_ERROR_TIME_PARSE : ts_error_t), (none : Option Int))
       else (.TS_SUCCESS, some (toTimeT (strtoul10 ds).value)))
    = if ds = [] ∨ valOf ds > ULONG_MAX ∨ valOf ds = 0 then (.TS_ERROR_TIME_PARSE, none)
      else (.TS_SUCCESS, some (toTimeT (valOf ds))) := by
  rw [strtoul10_all_digits ds h]
  by_cases hUL : valOf ds > ULONG_MAX
  · simp [hUL]
  · by_cases h0 : valOf ds = 0
    · simp [hUL, h0]
    · have hne : ds ≠ [] := by intro he; subst he; exact h0 rfl
      simp [hUL, h0, hne]

/-- Claim C4 counterexample: on the all-digit input
"9999999999999999999" (a value in `[2^63, 2^64)`), the plain-epoch
parser succeeds but stores the two's-complement-wrapped `time_t`
−8446744073709551617, not the parsed unsigned integer
9999999999999999999. -/
theorem unix_plain_wrap_counterexample :
    parse_unix_timestamp_plain (some "9999999999999999999".toList)
      = (.TS_SUCCESS, some (-8446744073709551617 : Int))
    ∧ (-8446744073709551617 : Int) ≠ (9999999999999999999 : Int) :=
  ⟨by decide, by decide⟩

/-- Claim C4 (amended): the plain-epoch parser fails with
`TS_ERROR_TIME_PARSE` exactly when the digit run is empty, has a
non-numeric remainder, overflows `unsigned long`, or parses to exactly
zero, and otherwise stores the parsed unsigned integer converted to
signed 64-bit `time_t` (values in `[2^63, 2^64)` wrap negative; below
`2^63` the parsed integer is returned exactly); the fractional-epoch
parser splits at the first `'.'`, applies the same rules to the integer
prefix, fails if there is no `'.'`, and on success returns the integer
prefix alone — never adjusting the epoch seconds by the fractional
digits, so "1755921813.123456" parses to 1755921813. -/
theorem unix_epoch_parsers_spec :
    (∀ ds : List Char, (∀ c ∈ ds, c.isDigit = true) →
      parse_unix_timestamp_plain (some ds)
        = if ds = [] ∨ valOf ds > ULONG_MAX ∨ valOf ds = 0
            then (.TS_ERROR_TIME_PARSE, none)
            else (.TS_SUCCESS, some (toTimeT (valOf ds))))
    ∧ (∀ (ds : List Char) (c : Char) (rest : List Char),
        (∀ x ∈ ds, x.isDigit = true) → ds ≠ [] → c.isDigit = false →
        parse_unix_timestamp_plain (some (ds ++ c :: rest)) = (.TS_ERROR_TIME_PARSE, none))
    ∧ (∀ s : List Char, s.contains '.' = false →
        parse_unix_timestamp_fractional (some s) = (.TS_ERROR_TIME_PARSE, none))
    ∧ (∀ (ds tail : List Char), (∀ c ∈ ds, c.isDigit = true) →
        parse_unix_timestamp_fractional (some (ds ++ '.' :: tail))
          = if ds = [] ∨ valOf ds > ULONG_MAX ∨ valOf ds = 0
              then (.TS_ERROR_TIME_PARSE, none)
              else (.TS_SUCCESS, some (toTimeT (valOf ds))))
    ∧ parse_unix_timestamp_fractional (some "1755921813.123456".toList)
        = (.TS_SUCCESS, some 1755921813) := by
  refine ⟨?_, ?_, ?_, ?_, by decide⟩
  · intro ds h
    simpa [parse_unix_timestamp_plain] using strtoul_check ds h
  · intro ds c rest h hne hc
    obtain ⟨d, t, rfl⟩ := List.exists_cons_of_ne_nil hne
    have hd := h d (List.mem_cons_self d t)
    obtain ⟨hsp, hminus, hplus, _, _⟩ := isDigit_facts d hd
    obtain ⟨htw, hdw⟩ := takeWhile_dropWhile_append Char.isDigit (d :: t) h c rest hc
    simp only [List.cons_append] at htw hdw
    have hstr : strtoul10 ((d :: t) ++ c :: rest)
        = if valOf (d :: t) > ULONG_MAX then ⟨ULONG_MAX, true, c :: rest⟩
          else ⟨valOf (d :: t), false, c :: rest⟩ := by
      simp [strtoul10, List.cons_append, List.dropWhile_cons, hsp, hminus, hplus, htw, hdw]
    simp only [parse_unix_timestamp_plain, hstr]
    by_cases hUL : valOf (d :: t) > ULONG_MAX
    · simp [hUL]
    · simp [hUL]
  · intro s h
    simp only [parse_unix_timestamp_fractional, h, Bool.not_false, if_true]
  · intro ds tail h
    have hcontains : (ds ++ '.' :: tail).contains '.' = true := by simp
    have hne' : ∀ x ∈ ds, (fun c => decide (c ≠ '.')) x = true := by
      intro x hx
      obtain ⟨_, _, _, hdot, _⟩ := isDigit_facts x (h x hx)
      simp [hdot]
    obtain ⟨htw, _⟩ :=
      takeWhile_dropWhile_append (fun c => decide (c ≠ '.')) ds hne' '.' tail (by simp)
    simp only [parse_unix_timestamp_fractional, hcontains, Bool.not_true,
      Bool.false_eq_true, if_false, htw]
    exact strtoul_check ds h

/-- Witness for C4: each hypothesis-bearing conjunct applied at a
concrete input. -/
theorem unix_epoch_parsers_spec_witness :
    parse_unix_timestamp_plain (some "1755921813".toList) = (.TS_SUCCESS, some 1755921813)
    ∧ parse_unix_timestamp_plain (some "17559218134x".toList) = (.TS_ERROR_TIME_PARSE, none)
    ∧ parse_unix_timestamp_fractional (some "abc".toList) = (.TS_ERROR_TIME_PARSE, none)
    ∧ parse_unix_timestamp_fractional (some "1755921813.9".toList)
        = (.TS_SUCCESS, some 1755921813) := by
  refine ⟨?_, ?_, ?_, ?_⟩
  · rw [unix_epoch_parsers_spec.1 "1755921813".toList (by decide)]; decide
  · have he : "17559218134x".toList = "17559218134".toList ++ 'x' :: [] := by decide
    rw [he, unix_epoch_parsers_spec.2.1 "17559218134".toList 'x' [] (by decide) (by decide)
      (by decide)]
  · exact unix_epoch_parsers_spec.2.2.1 "abc".toList (by decide)
  · have he : "1755921813.9".toList = "1755921813".toList ++ '.' :: ['9'] := by decide
    rw [he, unix_epoch_parsers_spec.2.2.2.1 "1755921813".toList ['9'] (by decide)]
    decide

/-! ## Claim C5: the single future-correction of the calendar parser -/

/-- Claim C5: whenever a calendar parse reaches the future check (the
defaulting step produced `tm1` and the first `mktime` succeeded) and the
computed time lies more than 30 days past `now`, the year is decremented
once and the time recomputed, and that recomputed value is the result no
matter how large it still is — the correction is never applied a second
time (first conjunct: the result is exactly the once-decremented
`mktime` value, with no further condition on it); when the computed time
is not more than 30 days in the future, no correction happens (second
conjunct). -/
theorem strptime_future_correction :
    (∀ (tm0 : tm_t) (now1 now2 : Int) (lt : Option tm_t) (mkt : tm_t → Int × tm_t)
       (s : List Char) (f : String) (tm1 : tm_t),
      default_tm_year tm0 now1 lt = .inr tm1 →
      (mkt (default_tm_fields tm1)).1 ≠ -1 →
      now2 ≠ -1 →
      (mkt (default_tm_fields tm1)).1 > now2 + SECONDS_PER_DAY * FUTURE_THRESHOLD_DAYS →
      parse_timestamp_strptime (some tm0) now1 lt mkt now2 (some s) (some f)
        = (if (mkt { (mkt (default_tm_fields tm1)).2 with
                tm_year := (mkt (default_tm_fields tm1)).2.tm_year - 1 }).1 = -1
            then (.TS_ERROR_TIME_PARSE, none)
            else (.TS_SUCCESS, some ((mkt { (mkt (default_tm_fields tm1)).2 with
                tm_year := (mkt (default_tm_fields tm1)).2.tm_year - 1 }).1))))
    ∧ (∀ (tm0 : tm_t) (now1 now2 : Int) (lt : Option tm_t) (mkt : tm_t → Int × tm_t)
       (s : List Char) (f : String) (tm1 : tm_t),
      default_tm_year tm0 now1 lt = .inr tm1 →
      (mkt (default_tm_fields tm1)).1 ≠ -1 →
      ¬(now2 ≠ -1 ∧
        (mkt (default_tm_fields tm1)).1 > now2 + SECONDS_PER_DAY * FUTURE_THRESHOLD_DAYS) →
      parse_timestamp_strptime (some tm0) now1 lt mkt now2 (some s) (some f)
        = (.TS_SUCCESS, some ((mkt (default_tm_fields tm1)).1))) := by
  constructor
  · intro tm0 now1 now2 lt mkt s f tm1 hyear h1 h2 h3
    simp only [parse_timestamp_strptime, hyear]
    rw [if_neg h1, if_pos ⟨h2, h3⟩]
  · intro tm0 now1 now2 lt mkt s f tm1 hyear h1 hfar
    simp only [parse_timestamp_strptime, hyear]
    rw [if_neg h1, if_neg hfar]

/-- Witness for C5: a concrete `mktime` oracle whose first result
(100000000) is far past `now = 0`; the returned value 99000000 is the
once-decremented recomputation and is itself still far past `now`,
showing no second correction; and a concrete non-far parse returning the
first `mktime` value unchanged. -/
theorem strptime_future_correction_witness :
    parse_timestamp_strptime (some { tm_year := 100, tm_mon := 1, tm_mday := 1 })
      0 none (fun tm => (tm.tm_year * 1000000, tm)) 0 (some []) (some "")
      = (.TS_SUCCESS, some 99000000)
    ∧ parse_timestamp_strptime (some { tm_year := 100, tm_mon := 1, tm_mday := 1 })
      0 none (fun tm => (tm.tm_year * 10, tm)) 0 (some []) (some "")
      = (.TS_SUCCESS, some 1000) := by
  constructor
  · rw [strptime_future_correction.1 { tm_year := 100, tm_mon := 1, tm_mday := 1 }
      0 0 none (fun tm => (tm.tm_year * 1000000, tm)) [] ""
      { tm_year := 100, tm_mon := 1, tm_mday := 1 }
      (by decide) (by decide) (by decide) (by decide)]
    decide
  · rw [strptime_future_correction.2 { tm_year := 100, tm_mon := 1, tm_mday := 1 }
      0 0 none (fun tm => (tm.tm_year * 10, tm)) [] ""
      { tm_year := 100, tm_mon := 1, tm_mday := 1 }
      (by decide) (by decide) (by decide)]
    decide

/-! ## Claim C6: the line rewriter -/

/-- Claim C6: when `find_timestamp_match` locates span `[s, e)` in the
line, `replace_timestamp_in_line` produces exactly
`line[:s] ++ new_text ++ line[e:]` provided it fits the capacity, and
fails with `TS_ERROR_BUFFER_OVERFLOW` (writing nothing) when the
composed length would not fit; when no span is found, it returns the
line unchanged byte for byte if it fits, and `TS_ERROR_BUFFER_OVERFLOW`
otherwise — never a silent truncation. -/
theorem replace_timestamp_in_line_spec :
    (∀ (sz : Nat) (l nt : List Char) (s e : Nat),
      find_timestamp_match (some l) = (.TS_SUCCESS, some (s, e)) →
      (s + nt.length + (l.drop e).length < sz →
        replace_timestamp_in_line sz (some l) (some nt)
          = (.TS_SUCCESS, some (l.take s ++ nt ++ l.drop e)))
      ∧ (s + nt.length + (l.drop e).length ≥ sz →
        replace_timestamp_in_line sz (some l) (some nt)
          = (.TS_ERROR_BUFFER_OVERFLOW, none)))
    ∧ (∀ (sz : Nat) (l nt : List Char),
      (find_timestamp_match (some l)).1 = .TS_ERROR_TIME_PARSE →
      (l.length < sz →
        replace_timestamp_in_line sz (some l) (some nt) = (.TS_SUCCESS, some l))
      ∧ (l.length ≥ sz →
        replace_timestamp_in_line sz (some l) (some nt)
          = (.TS_ERROR_BUFFER_OVERFLOW, none))) := by
  constructor
  · intro sz l nt s e hfind
    constructor
    · intro hlen
      simp only [replace_timestamp_in_line, hfind]
      rw [if_neg (by omega)]
    · intro hlen
      simp only [replace_timestamp_in_line, hfind]
      rw [if_pos (by omega)]
  · intro sz l nt hfind
    have hcase : replace_timestamp_in_line sz (some l) (some nt)
        = if l.length ≥ sz then (.TS_ERROR_BUFFER_OVERFLOW, none)
          else (.TS_SUCCESS, some l) := by
      simp only [replace_timestamp_in_line]
      cases hf : find_timestamp_match (some l) with
      | mk code val =>
        rw [hf] at hfind
        simp only at hfind
        subst hfind
        cases val <;> rfl
    constructor
    · intro hlen
      rw [hcase, if_neg (by omega)]
    · intro hlen
      rw [hcase, if_pos (by omega)]

/-- Witness for C6 at concrete inputs: replacement, replacement
overflow, pass-through, and pass-through overflow. -/
theorem replace_timestamp_in_line_spec_witness :
    replace_timestamp_in_line 4096 (some "1755921813 test line".toList)
      (some "[T]".toList) = (.TS_SUCCESS, some "[T] test line".toList)
    ∧ replace_timestamp_in_line 5 (some "1755921813 test line".toList)
      (some "[T]".toList) = (.TS_ERROR_BUFFER_OVERFLOW, none)
    ∧ replace_timestamp_in_line 4096 (some "hello".toList) (some "[T]".toList)
      = (.TS_SUCCESS, some "hello".toList)
    ∧ replace_timestamp_in_line 3 (some "hello".toList) (some "[T]".toList)
      = (.TS_ERROR_BUFFER_OVERFLOW, none) := by
  refine ⟨?_, ?_, ?_, ?_⟩
  · rw [(replace_timestamp_in_line_spec.1 4096 "1755921813 test line".toList
      "[T]".toList 0 10 (by decide)).1 (by decide)]
    decide
  · exact (replace_timestamp_in_line_spec.1 5 "1755921813 test line".toList
      "[T]".toList 0 10 (by decide)).2 (by decide)
  · exact (replace_timestamp_in_line_spec.2 4096 "hello".toList
      "[T]".toList (by decide)).1 (by decide)
  · exact (replace_timestamp_in_line_spec.2 3 "hello".toList
      "[T]".toList (by decide)).2 (by decide)

/-! ## Claim C9: the safe text primitives -/

/-- Claim C9: `safe_strcat` and `safe_snprintf` fail with
`TS_ERROR_INVALID_ARGUMENT` when a required pointer is absent; when the
required output would not fit the remaining capacity they report the
distinct `TS_ERROR_BUFFER_OVERFLOW` (the append leaving the
destination's existing content unmutated); and neither ever holds a
string at or beyond the destination's capacity (on success the stored
length is strictly below `dest_size`, leaving room for the terminator,
and the formatted write truncates at capacity even while reporting the
overflow). -/
theorem safe_text_primitives_spec :
    (∀ sz src, safe_strcat none sz src = (.TS_ERROR_INVALID_ARGUMENT, none))
    ∧ (∀ d sz, safe_strcat (some d) sz none = (.TS_ERROR_INVALID_ARGUMENT, some d))
    ∧ (∀ (d : List Char) (sz : Nat) (s : List Char), min d.length sz + s.length ≥ sz →
        safe_strcat (some d) sz (some s) = (.TS_ERROR_BUFFER_OVERFLOW, some d))
    ∧ (∀ (d : List Char) (sz : Nat) (s : List Char), min d.length sz + s.length < sz →
        safe_strcat (some d) sz (some s) = (.TS_SUCCESS, some (d ++ s))
          ∧ (d ++ s).length < sz)
    ∧ (∀ sz f rnd, safe_snprintf none sz f rnd = (.TS_ERROR_INVALID_ARGUMENT, none))
    ∧ (∀ d sz rnd, safe_snprintf (some d) sz none rnd = (.TS_ERROR_INVALID_ARGUMENT, some d))
    ∧ (∀ (d : List Char) (sz : Nat) (f : String) (rnd : List Char), rnd.length ≥ sz →
        (safe_snprintf (some d) sz (some f) rnd).1 = .TS_ERROR_BUFFER_OVERFLOW)
    ∧ (∀ (d : List Char) (sz : Nat) (f : String) (rnd : List Char), rnd.length < sz →
        safe_snprintf (some d) sz (some f) rnd = (.TS_SUCCESS, some rnd))
    ∧ (∀ (d : List Char) (sz : Nat) (f : String) (rnd out : List Char), 0 < sz →
        (safe_snprintf (some d) sz (some f) rnd).2 = some out → out.length < sz) := by
  refine ⟨fun sz src => by cases src <;> rfl, fun d sz => rfl, ?_, ?_, fun sz f rnd => by
    cases f <;> rfl, fun d sz rnd => rfl, ?_, ?_, ?_⟩
  · intro d sz s h
    simp only [safe_strcat]
    rw [if_pos h]
  · intro d sz s h
    simp only [safe_strcat]
    rw [if_neg (by omega)]
    refine ⟨rfl, ?_⟩
    rw [List.length_append]
    omega
  · intro d sz f rnd h
    simp only [safe_snprintf]
    rw [if_pos h]
  · intro d sz f rnd h
    have hsz : sz ≠ 0 := by omega
    simp only [safe_snprintf, hsz, if_false]
    rw [if_neg (by omega), List.take_of_length_le (by omega)]
  · intro d sz f rnd out hsz hout
    have hsz' : sz ≠ 0 := by omega
    simp only [safe_snprintf, hsz', if_false] at hout
    have hw : out = rnd.take (sz - 1) := by
      by_cases hc : rnd.length ≥ sz
      · rw [if_pos hc] at hout
        exact (Option.some.injEq _ _ ▸ hout.symm)
      · rw [if_neg hc] at hout
        exact (Option.some.injEq _ _ ▸ hout.symm)
    rw [hw, List.length_take]
    omega

/-- Witness for C9: the hypothesis-bearing conjuncts applied at concrete
buffers. -/
theorem safe_text_primitives_spec_witness :
    safe_strcat (some "abc".toList) 8 (some "defgh".toList)
      = (.TS_ERROR_BUFFER_OVERFLOW, some "abc".toList)
    ∧ safe_strcat (some "abc".toList) 8 (some "defg".toList)
      = (.TS_SUCCESS, some "abcdefg".toList)
    ∧ (safe_snprintf (some []) 4 (some "%d") "12345".toList).1
      = .TS_ERROR_BUFFER_OVERFLOW
    ∧ safe_snprintf (some []) 4 (some "%d") "123".toList
      = (.TS_SUCCESS, some "123".toList)
    ∧ "123".toList.length < 4 := by
  refine ⟨?_, ?_, ?_, ?_, ?_⟩
  · exact safe_text_primitives_spec.2.2.1 "abc".toList 8 "defgh".toList (by decide)
  · rw [(safe_text_primitives_spec.2.2.2.1 "abc".toList 8 "defg".toList (by decide)).1]
    decide
  · exact safe_text_primitives_spec.2.2.2.2.2.2.1 [] 4 "%d" "12345".toList (by decide)
  · exact safe_text_primitives_spec.2.2.2.2.2.2.2.1 [] 4 "%d" "123".toList (by decide)
  · exact safe_text_primitives_spec.2.2.2.2.2.2.2.2 [] 4 "%d" "123".toList "123".toList
      (by decide) (by rw [(safe_text_primitives_spec.2.2.2.2.2.2.2.1 [] 4 "%d" "123".toList
        (by decide))])

/-! ## Claim C10: delta-mode sub-second token priority -/

/-- Claim C10: in the incremental and since-start delta modes, when the
format string contains custom sub-second tokens, exactly one rendering
is chosen with fixed priority `%.s` over `%.S` over `%.T`, and the
chosen token's numeric rendering is the entire emitted timestamp — the
right-hand sides below depend on the format string only through the
containment tests, so every other character of the format (literal text
and other directives alike) is discarded rather than expanded around the
token. -/
theorem delta_token_priority :
    (∀ (st : Option (List Char)) (fmt : List Char) (ds dn : Int),
      strstrC ['%', '.', 's'] fmt = true →
      render_delta st fmt ds dn
        = (if (intStrC ds ++ '.' :: cPad 6 (Int.tdiv dn 1000)).length ≥ MAX_FORMAT_LENGTH
             then (.TS_ERROR_BUFFER_OVERFLOW, none)
             else (.TS_SUCCESS, some (intStrC ds ++ '.' :: cPad 6 (Int.tdiv dn 1000)))))
    ∧ (∀ (st : Option (List Char)) (fmt : List Char) (ds dn : Int),
      strstrC ['%', '.', 's'] fmt = false → strstrC ['%', '.', 'S'] fmt = true →
      render_delta st fmt ds dn
        = (if (cPad 2 (Int.tmod ds 60) ++ '.' :: cPad 6 (Int.tdiv dn 1000)).length
              ≥ MAX_FORMAT_LENGTH
             then (.TS_ERROR_BUFFER_OVERFLOW, none)
             else (.TS_SUCCESS,
               some (cPad 2 (Int.tmod ds 60) ++ '.' :: cPad 6 (Int.tdiv dn 1000)))))
    ∧ (∀ (st : Option (List Char)) (fmt : List Char) (ds dn : Int),
      strstrC ['%', '.', 's'] fmt = false → strstrC ['%', '.', 'S'] fmt = false →
      strstrC ['%', '.', 'T'] fmt = true →
      render_delta st fmt ds dn
        = (if (cPad 2 (Int.tdiv ds 3600) ++ ':' :: cPad 2 (Int.tdiv (Int.tmod ds 3600) 60)
                ++ ':' :: cPad 2 (Int.tmod ds 60) ++ '.' :: cPad 6 (Int.tdiv dn 1000)).length
              ≥ MAX_FORMAT_LENGTH
             then (.TS_ERROR_BUFFER_OVERFLOW, none)
             else (.TS_SUCCESS,
               some (cPad 2 (Int.tdiv ds 3600) ++ ':' :: cPad 2 (Int.tdiv (Int.tmod ds 3600) 60)
                 ++ ':' :: cPad 2 (Int.tmod ds 60) ++ '.' :: cPad 6 (Int.tdiv dn 1000))))) := by
  refine ⟨?_, ?_, ?_⟩
  · intro st fmt ds dn h1
    simp [render_delta, h1]
  · intro st fmt ds dn h1 h2
    simp [render_delta, h1, h2]
  · intro st fmt ds dn h1 h2 h3
    simp [render_delta, h1, h2, h3]

/-- Witness for C10: a format string containing all three tokens renders
as the `%.s` choice alone; one with `%.S` and `%.T` as the `%.S` choice;
one with `%.T` as the `%.T` choice — in each case the literal text of
the format string is absent from the output. -/
theorem delta_token_priority_witness :
    render_delta none "a%.T b%.S c%.s x".toList 75 123456789
      = (.TS_SUCCESS, some "75.123456".toList)
    ∧ render_delta none "a%.T b%.S x".toList 75 123456789
      = (.TS_SUCCESS, some "15.123456".toList)
    ∧ render_delta none "a%.T x".toList 3675 123456789
      = (.TS_SUCCESS, some "01:01:15.123456".toList) := by
  refine ⟨?_, ?_, ?_⟩
  · rw [delta_token_priority.1 none "a%.T b%.S c%.s x".toList 75 123456789 (by decide)]
    decide
  · rw [delta_token_priority.2.1 none "a%.T b%.S x".toList 75 123456789 (by decide) (by decide)]
    decide
  · rw [delta_token_priority.2.2 none "a%.T x".toList 3675 123456789 (by decide) (by decide)
      (by decide)]
    decide

/-! ## Claim C7: the two-pass formatter -/

/-- Whenever the bounded pass-1 scan succeeds, its output is exactly the
spec's pure left-to-right substitution. -/
lemma pass1_ok_spec (secs nsecs : Int) (tm : tm_t) :
    ∀ (acc f : List Char), ∀ res, pass1 secs nsecs tm acc f = (.TS_SUCCESS, some res) →
      res = acc ++ pass1_spec secs nsecs tm f := by
  intro acc f
  induction acc, f using pass1.induct secs nsecs tm with
  | case1 acc =>
    intro res h
    simp only [pass1, Prod.mk.injEq, Option.some.injEq, true_and] at h
    subst h
    simp [pass1_spec]
  | case2 acc r hov =>
    intro res h
    rw [pass1, if_pos hov] at h
    simp at h
  | case3 acc r hov ih =>
    intro res h
    simp only [pass1, if_neg hov] at h
    simpa [pass1_spec, List.append_assoc] using ih res h
  | case4 acc r hov =>
    intro res h
    rw [pass1, if_pos hov] at h
    simp at h
  | case5 acc r hov ih =>
    intro res h
    simp only [pass1, if_neg hov] at h
    simpa [pass1_spec, List.append_assoc] using ih res h
  | case6 acc r hov =>
    intro res h
    rw [pass1, if_pos hov] at h
    simp at h
  | case7 acc r hov ih =>
    intro res h
    simp only [pass1, if_neg hov] at h
    simpa [pass1_spec, List.append_assoc] using ih res h
  | case8 acc r hov =>
    intro res h
    rw [pass1, if_pos hov] at h
    simp at h
  | case9 acc r hov ih =>
    intro res h
    simp only [pass1, if_neg hov] at h
    simpa [pass1_spec, List.append_assoc] using ih res h
  | case10 acc r hov =>
    intro res h
    rw [pass1, if_pos hov] at h
    simp at h
  | case11 acc r hov ih =>
    intro res h
    simp only [pass1, if_neg hov] at h
    simpa [pass1_spec, List.append_assoc] using ih res h
  | case12 acc c r h1 h2 h3 h4 h5 hov =>
    intro res h
    simp only [pass1, if_pos hov] at h
    simp at h
  | case13 acc c r h1 h2 h3 h4 h5 hov ih =>
    intro res h
    simp only [pass1, if_neg hov] at h
    simpa [pass1_spec, List.append_assoc] using ih res h

/-- Claim C7: `format_timestamp_with_subsecond` is a two-pass expansion.
First conjunct (pass 1): whenever the bounded left-to-right scan
succeeds, its result is exactly the claimed substitution — `%.S` ↦
two-digit seconds + `.` + six-digit microseconds, `%.s` ↦ epoch-seconds
+ `.` + six-digit microseconds, `%.T` ↦ `HH:MM:SS` + `.` + six-digit
microseconds, `%N` ↦ nine-digit nanoseconds, `%s` ↦ plain epoch-seconds,
every other character (including other `%`-directives) copied through
literally (`pass1_spec`).  Second and third conjuncts (pass 2): the
pass-1 result is run through the calendar formatter exactly when it
still contains a `'%'`, and is the final output (after the capacity
check) otherwise. -/
theorem format_two_pass :
    (∀ (secs nsecs : Int) (tm : tm_t) (f res : List Char),
      pass1 secs nsecs tm [] f = (.TS_SUCCESS, some res) →
      res = pass1_spec secs nsecs tm f)
    ∧ (∀ (strf : List Char → tm_t → Option (List Char)) (tm : tm_t) (bsz : Nat)
        (f : List Char) (t : high_res_time_t) (res : List Char),
      pass1 t.seconds t.nanoseconds tm [] f = (.TS_SUCCESS, some res) →
      res.contains '%' = true →
      format_timestamp_with_subsecond strf (some tm) bsz (some f) (some t)
        = (match strf res tm with
           | none => (.TS_ERROR_BUFFER_OVERFLOW, none)
           | some out =>
             if out.length ≥ bsz then (.TS_ERROR_BUFFER_OVERFLOW, none)
             else (.TS_SUCCESS, some out)))
    ∧ (∀ (strf : List Char → tm_t → Option (List Char)) (tm : tm_t) (bsz : Nat)
        (f : List Char) (t : high_res_time_t) (res : List Char),
      pass1 t.seconds t.nanoseconds tm [] f = (.TS_SUCCESS, some res) →
      res.contains '%' = false →
      format_timestamp_with_subsecond strf (some tm) bsz (some f) (some t)
        = (if res.length ≥ bsz then (.TS_ERROR_BUFFER_OVERFLOW, none)
           else (.TS_SUCCESS, some res))) := by
  refine ⟨?_, ?_, ?_⟩
  · intro secs nsecs tm f res h
    simpa using pass1_ok_spec secs nsecs tm [] f res h
  · intro strf tm bsz f t res h hc
    simp only [format_timestamp_with_subsecond, h, hc, if_true]
  · intro strf tm bsz f t res h hc
    simp only [format_timestamp_with_subsecond, h, hc, Bool.false_eq_true, if_false]

/-- Witness for C7: the pass-1 substitution on a mixed format, a format
whose pass-1 result keeps a `%` and so goes through the pass-2
formatter (a concrete oracle here), and one that does not. -/
theorem format_two_pass_witness :
    pass1_spec 1755921813 123456000 { tm_sec := 23, tm_min := 25, tm_hour := 22 }
      "%N|%s".toList = "123456000|1755921813".toList
    ∧ ("123456000|1755921813".toList
        = pass1_spec 1755921813 123456000 { tm_sec := 23, tm_min := 25, tm_hour := 22 }
            "%N|%s".toList)
    ∧ format_timestamp_with_subsecond (fun r _ => some ('#' :: r)) (some {}) 256
        (some "%H=%.S".toList) (some ⟨7, 5000⟩)
        = (.TS_SUCCESS, some "#%H=00.000005".toList)
    ∧ format_timestamp_with_subsecond (fun _ _ => none) (some {}) 256
        (some "%.S".toList) (some ⟨7, 5000⟩)
        = (.TS_SUCCESS, some "00.000005".toList) := by
  refine ⟨?_, ?_, ?_, ?_⟩
  · exact (format_two_pass.1 1755921813 123456000
      { tm_sec := 23, tm_min := 25, tm_hour := 22 } "%N|%s".toList
      "123456000|1755921813".toList (by decide)).symm
  · exact format_two_pass.1 1755921813 123456000
      { tm_sec := 23, tm_min := 25, tm_hour := 22 } "%N|%s".toList
      "123456000|1755921813".toList (by decide)
  · rw [format_two_pass.2.1 (fun r _ => some ('#' :: r)) {} 256 "%H=%.S".toList
      ⟨7, 5000⟩ "%H=00.000005".toList (by decide) (by decide)]
    decide
  · rw [format_two_pass.2.2 (fun _ _ => none) {} 256 "%.S".toList
      ⟨7, 5000⟩ "00.000005".toList (by decide) (by decide)]
    decide

/-! ## Claim C8: the `%s` round trip -/

lemma decDigitsGo_append :
    ∀ (fuel m : Nat) (acc : List Char), m ≤ fuel →
      decDigitsGo fuel m acc = decDigitsGo fuel m [] ++ acc := by
  intro fuel
  induction fuel with
  | zero => intro m acc _; simp [decDigitsGo]
  | succ fuel ih =>
    intro m acc h
    by_cases hm : m = 0
    · subst hm; simp [decDigitsGo]
    · have hdiv : m / 10 ≤ fuel := by
        have h1 : m / 10 < m := Nat.div_lt_self (Nat.pos_of_ne_zero hm) (by norm_num)
        omega
      have e1 := ih (m / 10) (Char.ofNat (48 + m % 10) :: acc) hdiv
      have e2 := ih (m / 10) [Char.ofNat (48 + m % 10)] hdiv
      simp only [decDigitsGo, hm, if_false]
      rw [e1, e2]
      simp

lemma valOf_append_last (xs : List Char) (d : Char) :
    valOf (xs ++ [d]) = valOf xs * 10 + digitVal d := by
  simp [valOf, List.foldl_append]

lemma decDigitsGo_val : ∀ (fuel m : Nat), m ≤ fuel →
    valOf (decDigitsGo fuel m []) = m := by
  intro fuel
  induction fuel with
  | zero =>
    intro m h
    have : m = 0 := by omega
    subst this
    simp [decDigitsGo, valOf]
  | succ fuel ih =>
    intro m h
    by_cases hm : m = 0
    · subst hm; simp [decDigitsGo, valOf]
    · have hdiv : m / 10 ≤ fuel := by
        have h1 : m / 10 < m := Nat.div_lt_self (Nat.pos_of_ne_zero hm) (by norm_num)
        omega
      simp only [decDigitsGo, hm, if_false]
      rw [decDigitsGo_append fuel (m / 10) _ hdiv, valOf_append_last, ih (m / 10) hdiv]
      have hd : digitVal (Char.ofNat (48 + m % 10)) = m % 10 := by
        have h10 : m % 10 < 10 := Nat.mod_lt _ (by norm_num)
        generalize m % 10 = r at h10 ⊢
        interval_cases r <;> decide
      rw [hd]
      omega

lemma decDigits_val (n : Nat) : valOf (decDigits n) = n := by
  by_cases h : n = 0
  · subst h; decide
  · simp only [decDigits, h, if_false]
    exact decDigitsGo_val (n + 1) n (by omega)

lemma decDigitsGo_digits :
    ∀ (fuel m : Nat) (acc : List Char), (∀ c ∈ acc, c.isDigit = true) →
      ∀ c ∈ decDigitsGo fuel m acc, c.isDigit = true := by
  intro fuel
  induction fuel with
  | zero => intro m acc h; simpa [decDigitsGo] using h
  | succ fuel ih =>
    intro m acc h
    by_cases hm : m = 0
    · subst hm; simpa [decDigitsGo] using h
    · simp only [decDigitsGo, hm, if_false]
      apply ih
      intro c hc
      rcases List.mem_cons.mp hc with rfl | hc
      · have h10 : m % 10 < 10 := Nat.mod_lt _ (by norm_num)
        generalize m % 10 = r at h10 ⊢
        interval_cases r <;> decide
      · exact h c hc

lemma decDigits_digits (n : Nat) : ∀ c ∈ decDigits n, c.isDigit = true := by
  by_cases h : n = 0
  · subst h
    intro c hc
    simp [decDigits] at hc
    subst hc
    decide
  · simp only [decDigits, h, if_false]
    exact decDigitsGo_digits (n + 1) n [] (by simp)

lemma decDigits_ne_nil (n : Nat) : decDigits n ≠ [] := by
  by_cases h : n = 0
  · subst h; decide
  · simp only [decDigits, h, if_false]
    have hdiv : n / 10 ≤ n := Nat.div_le_self n 10
    simp only [decDigitsGo, h, if_false]
    rw [decDigitsGo_append n (n / 10) _ hdiv]
    simp

lemma decDigitsGo_len :
    ∀ (fuel k m : Nat), m ≤ fuel → m < 10 ^ k →
      (decDigitsGo fuel m []).length ≤ k := by
  intro fuel
  induction fuel with
  | zero =>
    intro k m h _
    have : m = 0 := by omega
    subst this
    simp [decDigitsGo]
  | succ fuel ih =>
    intro k m h hk
    by_cases hm : m = 0
    · subst hm; simp [decDigitsGo]
    · have hk0 : k ≠ 0 := by
        intro hk0
        subst hk0
        simp at hk
        omega
      obtain ⟨k', rfl⟩ : ∃ k', k = k' + 1 := ⟨k - 1, by omega⟩
      have hdiv : m / 10 ≤ fuel := by
        have h1 : m / 10 < m := Nat.div_lt_self (Nat.pos_of_ne_zero hm) (by norm_num)
        omega
      have hdivk : m / 10 < 10 ^ k' := by
        rw [Nat.div_lt_iff_lt_mul (by norm_num : 0 < 10)]
        calc m < 10 ^ (k' + 1) := hk
          _ = 10 ^ k' * 10 := by ring
      simp only [decDigitsGo, hm, if_false]
      rw [decDigitsGo_append fuel (m / 10) _ hdiv, List.length_append]
      have := ih k' (m / 10) hdiv hdivk
      simp only [List.length_cons, List.length_nil]
      omega

lemma decDigits_len_19 (n : Nat) (h : n ≤ 2 ^ 63) : (decDigits n).length ≤ 19 := by
  by_cases h0 : n = 0
  · subst h0; decide
  · simp only [decDigits, h0, if_false]
    refine decDigitsGo_len (n + 1) 19 n (by omega) ?_
    have : (2 : Nat) ^ 63 < 10 ^ 19 := by norm_num
    omega

lemma percent_not_mem_decDigits (n : Nat) : '%' ∉ decDigits n := by
  intro hmem
  have := decDigits_digits n '%' hmem
  exact absurd this (by decide)

lemma strtoul10_neg (n : Nat) (h1 : 1 ≤ n) (h2 : n ≤ 2 ^ 63) :
    strtoul10 ('-' :: decDigits n) = ⟨2 ^ 64 - n, false, []⟩ := by
  have hdigits := decDigits_digits n
  have htw : (decDigits n).takeWhile Char.isDigit = decDigits n :=
    List.takeWhile_eq_self_iff.mpr hdigits
  have hdw : (decDigits n).dropWhile Char.isDigit = [] :=
    List.dropWhile_eq_nil_iff.mpr hdigits
  have hne := decDigits_ne_nil n
  have hie : (decDigits n).isEmpty = false := by
    cases hd : decDigits n with
    | nil => exact absurd hd hne
    | cons a b => rfl
  have hUL : ¬ (valOf (decDigits n) > ULONG_MAX) := by
    rw [decDigits_val]
    simp only [ULONG_MAX]
    omega
  have hm1 : n % 2 ^ 64 = n := by omega
  have hm2 : (2 ^ 64 - n) % 2 ^ 64 = 2 ^ 64 - n := by omega
  simp only [strtoul10, List.dropWhile_cons, show isSpaceC '-' = false by decide,
    Bool.false_eq_true, if_false, List.head?_cons, List.tail_cons]
  simp [htw, hdw, hie, hUL, decDigits_val, hm1, hm2]
  rw [if_neg (show ¬ ULONG_MAX < n by simp only [ULONG_MAX]; omega)]
  have hmod : (18446744073709551616 - n % 18446744073709551616) % 18446744073709551616
      = 18446744073709551616 - n := by omega
  rw [hmod]

/-- The plain-epoch parser recovers any nonzero 64-bit `time_t` from its
`%ld` rendering (negative values go through `strtoul`'s sign-negation
modulo `2^64` and the `time_t` wrap brings them back). -/
lemma parse_plain_intStrC (t : Int) (h0 : t ≠ 0) (hlo : -(2 ^ 63) ≤ t)
    (hhi : t < 2 ^ 63) :
    parse_unix_timestamp_plain (some (intStrC t)) = (.TS_SUCCESS, some t) := by
  by_cases hneg : t < 0
  · have hn1 : 1 ≤ t.natAbs := by omega
    have hn2 : t.natAbs ≤ 2 ^ 63 := by omega
    simp only [intStrC, hneg, if_true]
    simp only [parse_unix_timestamp_plain, strtoul10_neg t.natAbs hn1 hn2]
    have hvz : (2 ^ 64 - t.natAbs == 0) = false := by
      simp
      omega
    simp only [hvz, List.isEmpty_nil, Bool.not_true, Bool.or_false, Bool.false_or,
      Bool.or_self, Bool.false_eq_true, if_false]
    have hlt : ¬ ((2 ^ 64 - t.natAbs : Nat) < 2 ^ 63) := by omega
    simp only [toTimeT, hlt, if_false]
    have : ((2 ^ 64 - t.natAbs : Nat) : Int) - 2 ^ 64 = t := by omega
    rw [this]
  · have hpos : 0 < t := lt_of_le_of_ne (not_lt.mp hneg) (Ne.symm h0)
    have hval : valOf (decDigits t.natAbs) = t.natAbs := decDigits_val _
    have hnn : decDigits t.natAbs ≠ [] := decDigits_ne_nil _
    have h1 : parse_unix_timestamp_plain (some (decDigits t.natAbs))
        = if decDigits t.natAbs = [] ∨ valOf (decDigits t.natAbs) > ULONG_MAX
            ∨ valOf (decDigits t.natAbs) = 0
          then (.TS_ERROR_TIME_PARSE, none)
          else (.TS_SUCCESS, some (toTimeT (valOf (decDigits t.natAbs)))) := by
      simpa [parse_unix_timestamp_plain] using
        strtoul_check (decDigits t.natAbs) (decDigits_digits _)
    have hcond : ¬ (decDigits t.natAbs = [] ∨ valOf (decDigits t.natAbs) > ULONG_MAX
        ∨ valOf (decDigits t.natAbs) = 0) := by
      rw [hval]
      simp only [ULONG_MAX]
      push_neg
      refine ⟨hnn, by omega, by omega⟩
    simp only [intStrC, hneg, if_false]
    rw [h1, if_neg hcond, hval]
    have htt : toTimeT t.natAbs = t := by
      simp only [toTimeT]
      rw [if_pos (by omega)]
      omega
    rw [htt]

/-- Claim C8 counterexample: at `t = 0` the round trip fails — `%s`
formats `t = 0` as "0", and the plain-epoch parser rejects a parsed
value of exactly zero with a time-parse failure instead of recovering
`t`. -/
theorem roundtrip_zero_counterexample :
    format_timestamp_with_subsecond (fun _ _ => none) (some {}) MAX_FORMAT_LENGTH
      (some ['%', 's']) (some ⟨0, 0⟩) = (.TS_SUCCESS, some ['0'])
    ∧ parse_unix_timestamp_plain (some ['0']) = (.TS_ERROR_TIME_PARSE, none) :=
  ⟨by decide, by decide⟩

/-- Claim C8 (amended): for any nonzero absolute time `t` representable
in 64-bit `time_t`, formatting `t` with the format string `"%s"` via
`format_timestamp_with_subsecond` succeeds, producing the decimal
rendering of `t`, and parsing that text back through the plain-epoch
parser recovers `t` exactly.  (At `t = 0` the parser's zero-is-invalid
rule breaks the round trip, so zero must be excluded.) -/
theorem roundtrip_percent_s (t ns : Int) (tm : tm_t)
    (strf : List Char → tm_t → Option (List Char))
    (h0 : t ≠ 0) (hlo : -(2 ^ 63) ≤ t) (hhi : t < 2 ^ 63) :
    format_timestamp_with_subsecond strf (some tm) MAX_FORMAT_LENGTH
      (some ['%', 's']) (some ⟨t, ns⟩) = (.TS_SUCCESS, some (intStrC t))
    ∧ parse_unix_timestamp_plain (some (intStrC t)) = (.TS_SUCCESS, some t) := by
  have hlen : (intStrC t).length ≤ 20 := by
    have hd := decDigits_len_19 t.natAbs (by omega)
    by_cases hneg : t < 0
    · simp only [intStrC, hneg, if_true, List.length_cons]
      omega
    · simp only [intStrC, hneg, if_false]
      omega
  have hcontains : (intStrC t).contains '%' = false := by
    have hmem : '%' ∉ intStrC t := by
      intro hmem
      by_cases hneg : t < 0
      · simp only [intStrC, hneg, if_true] at hmem
        rcases List.mem_cons.mp hmem with hpc | hmem
        · exact absurd hpc (by decide)
        · exact percent_not_mem_decDigits _ hmem
      · simp only [intStrC, hneg, if_false] at hmem
        exact percent_not_mem_decDigits _ hmem
    simpa using hmem
  have hp1 : pass1 t ns tm [] ['%', 's'] = (.TS_SUCCESS, some (intStrC t)) := by
    have hguard : ¬ (([] : List Char).length + (pieceLowS t).length ≥ MAX_FORMAT_LENGTH) := by
      simp only [List.length_nil, pieceLowS, MAX_FORMAT_LENGTH]
      omega
    simp only [pass1, if_neg hguard]
    simp [pieceLowS]
  refine ⟨?_, parse_plain_intStrC t h0 hlo hhi⟩
  simp only [format_timestamp_with_subsecond, hp1, hcontains, Bool.false_eq_true, if_false]
  rw [if_neg (by simp only [MAX_FORMAT_LENGTH]; omega)]

/-- Witness for C8 (amended) at `t = 1755921813`. -/
theorem roundtrip_percent_s_witness :
    format_timestamp_with_subsecond (fun _ _ => none) (some {}) MAX_FORMAT_LENGTH
      (some ['%', 's']) (some ⟨1755921813, 0⟩)
      = (.TS_SUCCESS, some (intStrC 1755921813))
    ∧ parse_unix_timestamp_plain (some (intStrC 1755921813))
      = (.TS_SUCCESS, some 1755921813) :=
  roundtrip_percent_s 1755921813 0 {} (fun _ _ => none) (by decide) (by decide) (by decide)

end TS
